import Mathlib

/-!
Verification of the repository-sync orchestrator of `agentspack`
(`internal/syncer/syncer.go`), against its natural-language specification.

The Go code is shallowly embedded: pure string processing becomes Lean
functions on `String`/`List Char`; the per-repository sync state machine
becomes a function from the outcomes of the external adapter calls to a
`SyncResult` paired with the trace of adapter calls it makes; the file
overlay becomes a transformer of a path-indexed file-system store.
-/

namespace Agentspack

/-! ## Go string primitives used by the syncer -/

/-- Go's `unicode.IsSpace` restricted to the Latin-1 range of characters
that manifest lines contain: space, tab, newline, vertical tab, form feed,
carriage return, NEL (U+0085) and NBSP (U+00A0).  This is the exact Latin-1
case split of Go's `unicode.isSpace`. -/
def goIsSpace (c : Char) : Bool :=
  c = ' ' || c = '\t' || c = '\n' || c.toNat = 11 || c.toNat = 12 ||
    c = '\r' || c.toNat = 133 || c.toNat = 160

/-- `strings.TrimSpace` on the character list: drop `goIsSpace` characters
from both ends. -/
def goTrimSpaceList (l : List Char) : List Char :=
  ((l.dropWhile goIsSpace).reverse.dropWhile goIsSpace).reverse

/-- `strings.TrimSpace`. -/
def goTrimSpace (s : String) : String :=
  ⟨goTrimSpaceList s.data⟩

/-- `strings.HasPrefix s pre`. -/
def goHasPrefixOf (s pre : String) : Bool :=
  pre.data.isPrefixOf s.data

/-- `strings.Contains s sub`: `sub` occurs as a contiguous substring of `s`. -/
def goContains (s sub : String) : Bool :=
  decide (sub.data <:+: s.data)

/-! ## Repository list loader (`Syncer.loadRepos`, `isValidRepoFormat`) -/

/-- `isValidRepoFormat` from `syncer.go`: `strings.Split(repo, "/")` must
yield exactly two parts, both non-empty and neither containing a space
(`strings.Contains(part, " ")`). -/
def isValidRepoFormat (repo : String) : Bool :=
  match repo.data.splitOn '/' with
  | [owner, name] =>
      decide (0 < owner.length) && decide (0 < name.length) &&
        !(decide ([' '] <:+: owner)) && !(decide ([' '] <:+: name))
  | _ => false

/-- `Syncer.loadRepos`, applied to the manifest file's lines: trim each
line, skip empty lines and `#` comments, drop lines failing
`isValidRepoFormat` (with a warning in the program), keep the rest in
order. -/
def loadRepos (lines : List String) : List String :=
  lines.filterMap fun raw =>
    let line := goTrimSpace raw
    if line = "" then none
    else if goHasPrefixOf line "#" then none
    else if !isValidRepoFormat line then none
    else some line

/-- The validity criterion exactly as the spec words it: the line splits on
`/` into exactly two non-empty, whitespace-free segments.  Stated from the
spec's words, to be compared with `isValidRepoFormat` from the source. -/
def claimValidOriginal (line : String) : Bool :=
  match line.data.splitOn '/' with
  | [owner, name] =>
      !owner.isEmpty && !name.isEmpty &&
        (owner.all fun c => !goIsSpace c) && (name.all fun c => !goIsSpace c)
  | _ => false

/-- The validity criterion as amended: the line splits on `/` into exactly
two non-empty segments, neither containing a space character (U+0020). -/
def claimValidAmended (line : String) : Bool :=
  match line.data.splitOn '/' with
  | [owner, name] =>
      !owner.isEmpty && !name.isEmpty &&
        !(owner.any fun c => c = ' ') && !(name.any fun c => c = ' ')
  | _ => false

/-! ## Configuration (`wizard.Config`, `wizard.SyncMode`) -/

/-- `wizard.SyncModePR`. -/
def SyncModePR : String := "pr"

/-- `wizard.SyncModeMerge`. -/
def SyncModeMerge : String := "merge"

/-- The part of `wizard.Config` the syncer reads: the apply mode string and
the target branch. -/
structure Config where
  syncMode : String
  targetBranch : String
deriving DecidableEq

/-- `syncer.SyncResult`. -/
structure SyncResult where
  repo : String
  success : Bool
  message : String
  prURL : String
deriving DecidableEq

/-- One adapter call made by `syncRepo`, with the arguments the Go code
passes (the working-copy path, identical in every call, is omitted). -/
inductive Call where
  | mkTempDir : Call
  | cloneRepo (repo : String) : Call
  | createBranch (branch : String) (base : String) : Call
  | copyFiles : Call
  | hasChanges : Call
  | commitAndPush (msg : String) : Call
  | createPR (repo : String) (branch : String) (base : String) : Call
  | mergeBranch (branch : String) (base : String) : Call
deriving DecidableEq

/-- The branch-name argument a call carries, if any. -/
def Call.branchArg : Call → Option String
  | .createBranch b _ => some b
  | .createPR _ b _ => some b
  | .mergeBranch b _ => some b
  | _ => none

/-- Whether a call is a review-request creation (`CreatePR`). -/
def Call.isCreatePR : Call → Bool
  | .createPR _ _ _ => true
  | _ => false

/-- Whether a call is a direct merge (`MergeBranch`). -/
def Call.isMergeBranch : Call → Bool
  | .mergeBranch _ _ => true
  | _ => false

/-- Whether a call is a commit-and-push. -/
def Call.isCommitAndPush : Call → Bool
  | .commitAndPush _ => true
  | _ => false

/-- Modelled from the spec: the external version-control and hosting
adapters (`CloneRepo`, `IsEmptyRepo`, `CreateBranch`, `HasChanges`,
`CommitAndPush`, `CreatePR`, `MergeBranch`, §4.3–4.4; their Go bodies are
not part of the embedded package) together with `os.MkdirTemp`.  Each field
is the outcome the corresponding call would return for this repository in
this run; `Except.error e` carries the error text rendered by `%v`. -/
structure RepoEnv where
  mkTempDir : Except String Unit
  cloneRepo : Except String Unit
  isEmptyRepo : Bool
  createBranch : Except String Unit
  copyFiles : Except String Unit
  hasChanges : Except String Bool
  createPR : Except String String
  commitAndPush : Except String Unit
  mergeBranch : Except String Unit

/-- Modelled from the spec: "An empty (zero-commit) repository is always
considered to have changes (everything is new)" — the contract of the
external `HasChanges` adapter (§4.2 DiffChecked). -/
def RepoEnv.ConformsToSpec (env : RepoEnv) : Prop :=
  env.isEmptyRepo = true → env.hasChanges ≠ Except.ok false

/-- The fixed commit message of `syncRepo`. -/
def commitMsg : String :=
  "chore: update AI agent configurations\n\nGenerated by agentspack"

/-- A failed `SyncResult`, as built on each error path of `syncRepo`. -/
def failRes (repo msg : String) : SyncResult :=
  ⟨repo, false, msg, ""⟩

/-- Direct translation of `Syncer.syncRepo`, paired with the ordered trace
of adapter calls the execution makes. -/
def syncRepo (cfg : Config) (env : RepoEnv) (repo branchName : String) :
    SyncResult × List Call :=
  match env.mkTempDir with
  | .error e => (failRes repo ("failed to create temp dir: " ++ e), [Call.mkTempDir])
  | .ok _ =>
  match env.cloneRepo with
  | .error e =>
      (failRes repo ("clone failed: " ++ e), [Call.mkTempDir, Call.cloneRepo repo])
  | .ok _ =>
  let isEmptyRepo := env.isEmptyRepo
  let tr := [Call.mkTempDir, Call.cloneRepo repo,
    Call.createBranch branchName cfg.targetBranch]
  match env.createBranch with
  | .error e => (failRes repo ("branch creation failed: " ++ e), tr)
  | .ok _ =>
  let tr := tr ++ [Call.copyFiles]
  match env.copyFiles with
  | .error e => (failRes repo ("copy failed: " ++ e), tr)
  | .ok _ =>
  let tr := tr ++ [Call.hasChanges]
  match env.hasChanges with
  | .error e => (failRes repo ("diff check failed: " ++ e), tr)
  | .ok hasChanges =>
  if !hasChanges then
    (⟨repo, true, "no changes", ""⟩, tr)
  else
  let tr := tr ++ [Call.commitAndPush commitMsg]
  match env.commitAndPush with
  | .error e => (failRes repo ("commit/push failed: " ++ e), tr)
  | .ok _ =>
  if isEmptyRepo then
    (⟨repo, true, "initialized " ++ cfg.targetBranch ++ " branch", ""⟩, tr)
  else
  if cfg.syncMode = SyncModePR then
    let tr := tr ++ [Call.createPR repo branchName cfg.targetBranch]
    match env.createPR with
    | .error e => (failRes repo ("PR creation failed: " ++ e), tr)
    | .ok prURL => (⟨repo, true, "", prURL⟩, tr)
  else
  let tr := tr ++ [Call.mergeBranch branchName cfg.targetBranch]
  match env.mergeBranch with
  | .error e => (failRes repo ("merge failed: " ++ e), tr)
  | .ok _ => (⟨repo, true, "merged", ""⟩, tr)

/-! ## The run loop (`Syncer.Run`) -/

/-- The running tallies and collected results of `Run`'s loop. -/
structure RunState where
  results : List SyncResult
  successCount : Nat
  skipCount : Nat
  failCount : Nat
deriving DecidableEq

/-- One iteration's bookkeeping in `Run`: append the result, then bump
exactly one counter following the printed classification. -/
def tally (st : RunState) (r : SyncResult) : RunState :=
  let st' := { st with results := st.results ++ [r] }
  if r.success then
    if r.prURL ≠ "" then { st' with successCount := st'.successCount + 1 }
    else if goContains r.message "no changes" then
      { st' with skipCount := st'.skipCount + 1 }
    else if goContains r.message "merged" then
      { st' with successCount := st'.successCount + 1 }
    else if goContains r.message "initialized" then
      { st' with successCount := st'.successCount + 1 }
    else { st' with successCount := st'.successCount + 1 }
  else { st' with failCount := st'.failCount + 1 }

/-- The `for _, repo := range repos` loop of `Run`: sync each repository in
manifest order, tallying each outcome.  `envs` gives each repository's
adapter outcomes for this run. -/
def runLoop (cfg : Config) (envs : String → RepoEnv) (branchName : String) :
    List String → RunState → RunState
  | [], st => st
  | repo :: rest, st =>
      runLoop cfg envs branchName rest
        (tally st (syncRepo cfg (envs repo) repo branchName).1)

/-- The classification under which `Run` tallies a result as skipped:
successful, no review-request URL, and a message containing
"no changes". -/
def skippedOutcome (r : SyncResult) : Bool :=
  r.success && decide (r.prURL = "") && goContains r.message "no changes"

/-- The classification under which `Run` tallies a result in the
created/merged count: successful and not skipped. -/
def createdOrMergedOutcome (r : SyncResult) : Bool :=
  r.success && !(decide (r.prURL = "") && goContains r.message "no changes")

/-- The classification under which `Run` tallies a result as failed. -/
def failedOutcome (r : SyncResult) : Bool :=
  !r.success

/-- A wall-clock instant at second resolution, as read by `time.Now()`. -/
structure Timestamp where
  year : Nat
  month : Nat
  day : Nat
  hour : Nat
  minute : Nat
  second : Nat
deriving DecidableEq

/-- Zero-pad to two digits (Go layout elements `01 02 15 04 05`). -/
def pad2 (n : Nat) : String :=
  if n < 10 then "0" ++ toString n else toString n

/-- Zero-pad to four digits (Go layout element `2006`). -/
def pad4 (n : Nat) : String :=
  if n < 10 then "000" ++ toString n
  else if n < 100 then "00" ++ toString n
  else if n < 1000 then "0" ++ toString n
  else toString n

/-- `t.Format("20060102-150405")`. -/
def formatStamp (t : Timestamp) : String :=
  pad4 t.year ++ pad2 t.month ++ pad2 t.day ++ "-" ++
    pad2 t.hour ++ pad2 t.minute ++ pad2 t.second

/-- The branch name `Run` generates once per run. -/
def mkBranchName (t : Timestamp) : String :=
  "agentspack/update-" ++ formatStamp t

/-- The outcome of `Syncer.Run`: an early error, the empty-manifest
no-op, or a finished loop with its state and final error (if any). -/
inductive RunOutcome where
  | prereqFailed (msg : String) : RunOutcome
  | loadFailed (msg : String) : RunOutcome
  | noRepos : RunOutcome
  | finished (st : RunState) (err : Option String) : RunOutcome
deriving DecidableEq

/-- Direct translation of `Syncer.Run`.  `ghInstalled`/`ghAuth` are the
outcomes of the prerequisite checks, `manifest` the outcome of opening the
manifest file together with its lines, `start` the `time.Now()` reading. -/
def run (ghInstalled ghAuth : Except String Unit)
    (manifest : Except String (List String)) (cfg : Config)
    (envs : String → RepoEnv) (start : Timestamp) : RunOutcome :=
  match ghInstalled with
  | .error e => .prereqFailed e
  | .ok _ =>
  match ghAuth with
  | .error e => .prereqFailed e
  | .ok _ =>
  match manifest with
  | .error e => .loadFailed ("failed to load repositories: " ++ e)
  | .ok lines =>
  let repos := loadRepos lines
  if repos.length = 0 then .noRepos
  else
    let branchName := mkBranchName start
    let st := runLoop cfg envs branchName repos ⟨[], 0, 0, 0⟩
    if 0 < st.failCount then
      .finished st (some (toString st.failCount ++ " repositories failed to sync"))
    else
      .finished st none

/-! ## File-system model for the overlay (`copyFile`, `copyDir`,
`Syncer.copyFiles`)

Paths are lists of component names rooted at the file system's root.  The
store maps each path to the node there, if any.  The source directory read
by the copy (via `os.ReadDir`/`os.ReadFile`/`os.Stat`) is presented as a
tree value, mirroring that the copy only ever reads it. -/

/-- A path, as a list of component names. -/
abbrev FPath := List String

/-- A node of the destination store: a regular file with its mode and
bytes, or a directory with its mode. -/
inductive SNode where
  | file (mode : Nat) (content : List Nat) : SNode
  | dir (mode : Nat) : SNode
deriving DecidableEq

/-- The file-system store. -/
def FS : Type := FPath → Option SNode

/-- A source tree entry: what `os.Stat`/`os.ReadDir`/`os.ReadFile` observe
below the generated output directory. -/
inductive FNode where
  | file (mode : Nat) (content : List Nat) : FNode
  | dir (mode : Nat) (entries : List (String × FNode)) : FNode

/-- `os.WriteFile(dst, data, perm)`: replace the bytes of an existing
file, keeping its mode; create a missing file with mode `perm`. -/
def writeFile (fs : FS) (p : FPath) (data : List Nat) (perm : Nat) : FS :=
  fun q =>
    if q = p then
      some (match fs p with
        | some (SNode.file m _) => SNode.file m data
        | _ => SNode.file perm data)
    else fs q

/-- Helper for `mkdirAll`: walk the remaining components, creating each
missing directory with mode `perm` and leaving existing entries alone. -/
def mkdirAllAux (fs : FS) (done : FPath) (rest : List String) (perm : Nat) : FS :=
  match rest with
  | [] => fs
  | d :: ds =>
    let cur := done ++ [d]
    let fs' : FS :=
      match fs cur with
      | some _ => fs
      | none => fun q => if q = cur then some (SNode.dir perm) else fs q
    mkdirAllAux fs' cur ds perm

/-- `os.MkdirAll(p, perm)`. -/
def mkdirAll (fs : FS) (p : FPath) (perm : Nat) : FS :=
  mkdirAllAux fs [] p perm

/-- `copyFile` from `syncer.go`: read the source bytes, ensure the parent
directory exists (`os.MkdirAll(filepath.Dir(dst), 0755)`), then
`os.WriteFile(dst, data, 0644)`. -/
def copyFile (fs : FS) (dst : FPath) (data : List Nat) : FS :=
  writeFile (mkdirAll fs dst.dropLast 0o755) dst data 0o644

mutual

/-- `copyDir` from `syncer.go`: stat the source, create the destination
directory with the source's mode (`os.MkdirAll(dst, srcInfo.Mode())`),
then copy each entry.  `copyDir` is only ever invoked on directories
(guarded by `entry.IsDir()`); the file case is unreachable in the program
and leaves the store unchanged. -/
def copyDir (fs : FS) (src : FNode) (dst : FPath) : FS :=
  match src with
  | FNode.file _ _ => fs
  | FNode.dir m entries => copyEntries (mkdirAll fs dst m) entries dst

/-- The shared per-entry loop of `Syncer.copyFiles` and `copyDir`:
directories go through `copyDir`, everything else through `copyFile`. -/
def copyEntries (fs : FS) (entries : List (String × FNode)) (dst : FPath) : FS :=
  match entries with
  | [] => fs
  | (name, node) :: rest =>
    let fs' :=
      match node with
      | FNode.dir _ _ => copyDir fs node (dst ++ [name])
      | FNode.file _ content => copyFile fs (dst ++ [name]) content
    copyEntries fs' rest dst

end

/-- `Syncer.copyFiles`: overlay the entries of the generated output
directory onto the repository working copy `repoDir`. -/
def copyFiles (fs : FS) (outputEntries : List (String × FNode)) (repoDir : FPath) : FS :=
  copyEntries fs outputEntries repoDir

/-! ## Theorems -/

lemma syncRepo_trace_mem (cfg : Config) (env : RepoEnv) (repo b : String) :
    ∀ c ∈ (syncRepo cfg env repo b).2,
      c = Call.mkTempDir ∨ c = Call.cloneRepo repo ∨
      c = Call.createBranch b cfg.targetBranch ∨ c = Call.copyFiles ∨
      c = Call.hasChanges ∨ c = Call.commitAndPush commitMsg ∨
      (env.isEmptyRepo = false ∧
        (c = Call.createPR repo b cfg.targetBranch ∨
          c = Call.mergeBranch b cfg.targetBranch)) := by
  intro c hc
  unfold syncRepo at hc
  repeat' split at hc
  all_goals cases hie : env.isEmptyRepo <;> simp_all <;> tauto

lemma syncRepo_pr_url_empty (cfg : Config) (env : RepoEnv) (repo b : String)
    (he : env.isEmptyRepo = true) : (syncRepo cfg env repo b).1.prURL = "" := by
  have h : (syncRepo cfg env repo b).1.prURL = "" ∨ env.isEmptyRepo = false := by
    unfold syncRepo
    repeat' split
    all_goals cases hie : env.isEmptyRepo <;> simp_all [failRes]
  rcases h with h | h
  · exact h
  · rw [he] at h; cases h

/-- C3: when the temp-dir, clone, branch-creation, copy and diff-check stages succeed and `HasChanges` reports false, `syncRepo` returns Success with message exactly "no changes", and neither `CommitAndPush` nor `CreatePR` nor `MergeBranch` is invoked. -/
theorem syncRepo_no_changes_skips (cfg : Config) (env : RepoEnv) (repo b : String)
    (h1 : env.mkTempDir = Except.ok ()) (h2 : env.cloneRepo = Except.ok ())
    (h3 : env.createBranch = Except.ok ()) (h4 : env.copyFiles = Except.ok ())
    (h5 : env.hasChanges = Except.ok false) :
    (syncRepo cfg env repo b).1 = ⟨repo, true, "no changes", ""⟩ ∧
    ∀ c ∈ (syncRepo cfg env repo b).2,
      c.isCommitAndPush = false ∧ c.isCreatePR = false ∧ c.isMergeBranch = false := by
  constructor
  · simp [syncRepo, h1, h2, h3, h4, h5]
  · intro c hcm
    simp [syncRepo, h1, h2, h3, h4, h5] at hcm
    rcases hcm with h | h | h | h | h <;> subst h <;>
      simp [Call.isCommitAndPush, Call.isCreatePR, Call.isMergeBranch]

theorem syncRepo_no_changes_skips_witness :
    (syncRepo ⟨"pr", "main"⟩
        ⟨Except.ok (), Except.ok (), false, Except.ok (), Except.ok (),
          Except.ok false, Except.ok "u", Except.ok (), Except.ok ()⟩
        "a/b" "br").1 = ⟨"a/b", true, "no changes", ""⟩ ∧
    ∀ c ∈ (syncRepo ⟨"pr", "main"⟩
        ⟨Except.ok (), Except.ok (), false, Except.ok (), Except.ok (),
          Except.ok false, Except.ok "u", Except.ok (), Except.ok ()⟩
        "a/b" "br").2,
      c.isCommitAndPush = false ∧ c.isCreatePR = false ∧ c.isMergeBranch = false :=
  syncRepo_no_changes_skips _ _ _ _ rfl rfl rfl rfl rfl

/-- C2: for a repository that is empty at the start of its sync, if the clone, branch-creation, copy, diff-check and commit-and-push stages succeed, `syncRepo` returns Success with message "initialized <targetBranch> branch" and an empty review-request URL, invoking neither `CreatePR` nor `MergeBranch`, regardless of the configured apply mode; and an empty repository never yields a review-request outcome. -/
theorem syncRepo_empty_initialized (cfg : Config) (env : RepoEnv) (repo b : String)
    (hv : Bool) (hspec : env.ConformsToSpec) (he : env.isEmptyRepo = true)
    (h1 : env.mkTempDir = Except.ok ()) (h2 : env.cloneRepo = Except.ok ())
    (h3 : env.createBranch = Except.ok ()) (h4 : env.copyFiles = Except.ok ())
    (h5 : env.hasChanges = Except.ok hv) (h6 : env.commitAndPush = Except.ok ()) :
    (syncRepo cfg env repo b).1 =
      ⟨repo, true, "initialized " ++ cfg.targetBranch ++ " branch", ""⟩ ∧
    (∀ c ∈ (syncRepo cfg env repo b).2,
      c.isCreatePR = false ∧ c.isMergeBranch = false) ∧
    (∀ env' : RepoEnv, env'.isEmptyRepo = true →
      (syncRepo cfg env' repo b).1.prURL = "") := by
  have hvt : hv = true := by
    cases hv
    · exact absurd h5 (hspec he)
    · rfl
  subst hvt
  refine ⟨?_, ?_, ?_⟩
  · simp [syncRepo, h1, h2, h3, h4, h5, h6, he]
  · intro c hcm
    simp [syncRepo, h1, h2, h3, h4, h5, h6, he] at hcm
    rcases hcm with h | h | h | h | h | h <;> subst h <;>
      simp [Call.isCreatePR, Call.isMergeBranch]
  · intro env' he'
    exact syncRepo_pr_url_empty cfg env' repo b he'

theorem syncRepo_empty_initialized_witness :
    (syncRepo ⟨"pr", "main"⟩
        ⟨Except.ok (), Except.ok (), true, Except.ok (), Except.ok (),
          Except.ok true, Except.ok "u", Except.ok (), Except.ok ()⟩
        "a/b" "br").1 = ⟨"a/b", true, "initialized " ++ "main" ++ " branch", ""⟩ ∧
    (∀ c ∈ (syncRepo ⟨"pr", "main"⟩
        ⟨Except.ok (), Except.ok (), true, Except.ok (), Except.ok (),
          Except.ok true, Except.ok "u", Except.ok (), Except.ok ()⟩
        "a/b" "br").2, c.isCreatePR = false ∧ c.isMergeBranch = false) ∧
    (∀ env' : RepoEnv, env'.isEmptyRepo = true →
      (syncRepo ⟨"pr", "main"⟩ env' "a/b" "br").1.prURL = "") :=
  syncRepo_empty_initialized ⟨"pr", "main"⟩
    ⟨Except.ok (), Except.ok (), true, Except.ok (), Except.ok (),
      Except.ok true, Except.ok "u", Except.ok (), Except.ok ()⟩
    "a/b" "br" true (by intro h1 h2; simp at h2) rfl rfl rfl rfl rfl rfl rfl

lemma writeFile_ne (fs : FS) (p : FPath) (data : List Nat) (perm : Nat)
    (q : FPath) (h : q ≠ p) : writeFile fs p data perm q = fs q := by
  unfold writeFile
  exact if_neg h

lemma writeFile_eq (fs : FS) (p : FPath) (data : List Nat) (perm : Nat) :
    writeFile fs p data perm p =
      some (match fs p with
        | some (SNode.file m _) => SNode.file m data
        | _ => SNode.file perm data) := by
  unfold writeFile
  exact if_pos rfl

lemma mkdirAllAux_cases (perm : Nat) :
    ∀ (rest : List String) (fs : FS) (done : FPath) (q : FPath),
      mkdirAllAux fs done rest perm q = fs q ∨
      (fs q = none ∧ mkdirAllAux fs done rest perm q = some (SNode.dir perm) ∧
        ∃ i, 1 ≤ i ∧ i ≤ rest.length ∧ q = done ++ rest.take i) := by
  intro rest
  induction rest with
  | nil => intro fs done q; left; rfl
  | cons d ds ih =>
    intro fs done q
    cases hcur : fs (done ++ [d]) with
    | some n =>
      have hstep : mkdirAllAux fs done (d :: ds) perm =
          mkdirAllAux fs (done ++ [d]) ds perm := by
        simp [mkdirAllAux, hcur]
      rw [hstep]
      rcases ih fs (done ++ [d]) q with h | ⟨hn, hs, i, hi1, hi2, hq⟩
      · left; exact h
      · right
        refine ⟨hn, hs, i + 1, by omega, by simp; omega, ?_⟩
        rw [hq, List.take_succ_cons]
        simp
    | none =>
      have hstep : mkdirAllAux fs done (d :: ds) perm =
          mkdirAllAux (fun r => if r = done ++ [d] then some (SNode.dir perm) else fs r)
            (done ++ [d]) ds perm := by
        simp [mkdirAllAux, hcur]
      rw [hstep]
      rcases ih (fun r => if r = done ++ [d] then some (SNode.dir perm) else fs r)
          (done ++ [d]) q with h | ⟨hn, hs, i, hi1, hi2, hq⟩
      · by_cases hq : q = done ++ [d]
        · right
          refine ⟨by rw [hq]; exact hcur, ?_, 1, le_refl 1, by simp, by simp [hq]⟩
          rw [h]
          simp [hq]
        · left
          rw [h]
          simp [hq]
      · have hqne : q ≠ done ++ [d] := by
          intro he
          rw [he] at hn
          simp at hn
        right
        refine ⟨?_, hs, i + 1, by omega, by simp; omega, ?_⟩
        · simpa [hqne] using hn
        · rw [hq, List.take_succ_cons]
          simp

lemma mkdirAllAux_preserve (perm : Nat) :
    ∀ (rest : List String) (fs : FS) (done : FPath) (q : FPath) (n : SNode),
      fs q = some n → mkdirAllAux fs done rest perm q = some n := by
  intro rest
  induction rest with
  | nil => intro fs done q n hq; exact hq
  | cons d ds ih =>
    intro fs done q n hq
    cases hcur : fs (done ++ [d]) with
    | some m =>
      have hstep : mkdirAllAux fs done (d :: ds) perm =
          mkdirAllAux fs (done ++ [d]) ds perm := by
        simp [mkdirAllAux, hcur]
      rw [hstep]
      exact ih fs (done ++ [d]) q n hq
    | none =>
      have hstep : mkdirAllAux fs done (d :: ds) perm =
          mkdirAllAux (fun r => if r = done ++ [d] then some (SNode.dir perm) else fs r)
            (done ++ [d]) ds perm := by
        simp [mkdirAllAux, hcur]
      rw [hstep]
      apply ih
      have hqne : q ≠ done ++ [d] := by
        intro he
        rw [he, hcur] at hq
        cases hq
      simpa [hqne] using hq

lemma mkdirAllAux_covers (perm : Nat) :
    ∀ (rest : List String) (fs : FS) (done : FPath) (i : Nat),
      1 ≤ i → i ≤ rest.length →
      mkdirAllAux fs done rest perm (done ++ rest.take i) ≠ none := by
  intro rest
  induction rest with
  | nil => intro fs done i h1 h2; simp at h2; omega
  | cons d ds ih =>
    intro fs done i h1 h2
    cases hcur : fs (done ++ [d]) with
    | some m =>
      have hstep : mkdirAllAux fs done (d :: ds) perm =
          mkdirAllAux fs (done ++ [d]) ds perm := by
        simp [mkdirAllAux, hcur]
      rw [hstep]
      match i, h1 with
      | 1, _ =>
        rw [List.take_succ_cons, List.take_zero]
        have := mkdirAllAux_preserve perm ds fs (done ++ [d]) (done ++ [d]) m hcur
        rw [this]
        exact fun hcontra => Option.noConfusion hcontra
      | (j + 2), _ =>
        rw [List.take_succ_cons]
        have hj : 1 ≤ j + 1 := by omega
        have hj2 : j + 1 ≤ ds.length := by simp at h2; omega
        have := ih fs (done ++ [d]) (j + 1) hj hj2
        simpa using this
    | none =>
      have hstep : mkdirAllAux fs done (d :: ds) perm =
          mkdirAllAux (fun r => if r = done ++ [d] then some (SNode.dir perm) else fs r)
            (done ++ [d]) ds perm := by
        simp [mkdirAllAux, hcur]
      rw [hstep]
      match i, h1 with
      | 1, _ =>
        rw [List.take_succ_cons, List.take_zero]
        have hsome : (fun r => if r = done ++ [d] then some (SNode.dir perm) else fs r)
            (done ++ [d]) = some (SNode.dir perm) := by simp
        have := mkdirAllAux_preserve perm ds
          (fun r => if r = done ++ [d] then some (SNode.dir perm) else fs r)
          (done ++ [d]) (done ++ [d]) (SNode.dir perm) hsome
        rw [this]
        exact fun hcontra => Option.noConfusion hcontra
      | (j + 2), _ =>
        rw [List.take_succ_cons]
        have hj : 1 ≤ j + 1 := by omega
        have hj2 : j + 1 ≤ ds.length := by simp at h2; omega
        have := ih (fun r => if r = done ++ [d] then some (SNode.dir perm) else fs r)
          (done ++ [d]) (j + 1) hj hj2
        simpa using this

lemma mkdirAll_cases (fs : FS) (p : FPath) (perm : Nat) (q : FPath) :
    mkdirAll fs p perm q = fs q ∨
    (fs q = none ∧ mkdirAll fs p perm q = some (SNode.dir perm) ∧
      ∃ i, 1 ≤ i ∧ i ≤ p.length ∧ q = p.take i) := by
  have := mkdirAllAux_cases perm p fs [] q
  simpa [mkdirAll] using this

lemma mkdirAll_preserve (fs : FS) (p : FPath) (perm : Nat) (q : FPath) (n : SNode)
    (h : fs q = some n) : mkdirAll fs p perm q = some n :=
  mkdirAllAux_preserve perm p fs [] q n h

lemma mkdirAll_covers (fs : FS) (p : FPath) (perm : Nat) (i : Nat)
    (h1 : 1 ≤ i) (h2 : i ≤ p.length) : mkdirAll fs p perm (p.take i) ≠ none := by
  have := mkdirAllAux_covers perm p fs [] i h1 h2
  simpa [mkdirAll] using this

lemma mkdirAll_noop (fs : FS) (p : FPath) (perm : Nat)
    (hex : ∀ i, 1 ≤ i → i ≤ p.length → fs (p.take i) ≠ none) (q : FPath) :
    mkdirAll fs p perm q = fs q := by
  rcases mkdirAll_cases fs p perm q with h | ⟨hn, _, i, h1, h2, hq⟩
  · exact h
  · rw [hq] at hn
    exact absurd hn (hex i h1 h2)

lemma mkdirAll_creates (fs : FS) (p : FPath) (perm : Nat) (i : Nat)
    (h1 : 1 ≤ i) (h2 : i ≤ p.length) (hn : fs (p.take i) = none) :
    mkdirAll fs p perm (p.take i) = some (SNode.dir perm) := by
  rcases mkdirAll_cases fs p perm (p.take i) with h | ⟨_, hs, _⟩
  · exact absurd (h.trans hn) (mkdirAll_covers fs p perm i h1 h2)
  · exact hs

lemma mkdirAll_changed_take (fs : FS) (p : FPath) (perm : Nat) (q : FPath)
    (h : mkdirAll fs p perm q ≠ fs q) : ∃ i, 1 ≤ i ∧ i ≤ p.length ∧ q = p.take i := by
  rcases mkdirAll_cases fs p perm q with h' | ⟨_, _, hex⟩
  · exact absurd h' h
  · exact hex

lemma copyFile_exists (fs : FS) (dst : FPath) (data : List Nat) (q : FPath)
    (n : SNode) (h : fs q = some n) : ∃ n', copyFile fs dst data q = some n' := by
  unfold copyFile
  by_cases hq : q = dst
  · subst hq
    rw [writeFile_eq]
    exact ⟨_, rfl⟩
  · rw [writeFile_ne _ _ _ _ _ hq]
    exact ⟨n, mkdirAll_preserve _ _ _ q n h⟩

lemma copyFile_shallow (fs : FS) (dst : FPath) (data : List Nat) (q : FPath)
    (n : SNode) (hne : q ≠ dst) (h : fs q = some n) : copyFile fs dst data q = some n := by
  unfold copyFile
  rw [writeFile_ne _ _ _ _ _ hne]
  exact mkdirAll_preserve _ _ _ q n h

mutual

theorem copyDir_exists (src : FNode) (fs : FS) (dst : FPath) (q : FPath) (n : SNode)
    (h : fs q = some n) : ∃ n', copyDir fs src dst q = some n' := by
  cases src with
  | file m c => exact ⟨n, h⟩
  | dir m entries =>
    exact copyEntries_exists entries (mkdirAll fs dst m) dst q n
      (mkdirAll_preserve fs dst m q n h)

theorem copyEntries_exists (entries : List (String × FNode)) (fs : FS) (dst : FPath)
    (q : FPath) (n : SNode) (h : fs q = some n) :
    ∃ n', copyEntries fs entries dst q = some n' := by
  cases entries with
  | nil => exact ⟨n, h⟩
  | cons e rest =>
    obtain ⟨name, node⟩ := e
    cases node with
    | dir m es =>
      obtain ⟨n', h'⟩ := copyDir_exists (FNode.dir m es) fs (dst ++ [name]) q n h
      exact copyEntries_exists rest (copyDir fs (FNode.dir m es) (dst ++ [name]))
        dst q n' h'
    | file m content =>
      obtain ⟨n', h'⟩ := copyFile_exists fs (dst ++ [name]) content q n h
      exact copyEntries_exists rest (copyFile fs (dst ++ [name]) content) dst q n' h'

end

mutual

theorem copyDir_shallow (src : FNode) (fs : FS) (dst : FPath) (q : FPath) (n : SNode)
    (hlen : q.length ≤ dst.length) (h : fs q = some n) : copyDir fs src dst q = some n := by
  cases src with
  | file m c => exact h
  | dir m entries =>
    exact copyEntries_shallow entries (mkdirAll fs dst m) dst q n hlen
      (mkdirAll_preserve fs dst m q n h)

theorem copyEntries_shallow (entries : List (String × FNode)) (fs : FS) (dst : FPath)
    (q : FPath) (n : SNode) (hlen : q.length ≤ dst.length) (h : fs q = some n) :
    copyEntries fs entries dst q = some n := by
  cases entries with
  | nil => exact h
  | cons e rest =>
    obtain ⟨name, node⟩ := e
    cases node with
    | dir m es =>
      have h' := copyDir_shallow (FNode.dir m es) fs (dst ++ [name]) q n
        (by simp; omega) h
      exact copyEntries_shallow rest (copyDir fs (FNode.dir m es) (dst ++ [name]))
        dst q n hlen h'
    | file m content =>
      have hne : q ≠ dst ++ [name] := by
        intro he
        rw [he] at hlen
        have hl2 : dst.length + 1 ≤ dst.length := by simpa using hlen
        omega
      have h' := copyFile_shallow fs (dst ++ [name]) content q n hne h
      exact copyEntries_shallow rest (copyFile fs (dst ++ [name]) content) dst q n hlen h'

end

lemma mkdirAll_frame_strict (fs : FS) (dst : FPath) (perm : Nat) (q : FPath)
    (hex : ∀ i, 1 ≤ i → i < dst.length → fs (dst.take i) ≠ none)
    (hq : ¬ dst <+: q) : mkdirAll fs dst perm q = fs q := by
  rcases mkdirAll_cases fs dst perm q with h | ⟨hn, _, i, h1, h2, hqe⟩
  · exact h
  · rcases Nat.lt_or_ge i dst.length with hlt | hge
    · rw [hqe] at hn
      exact absurd hn (hex i h1 hlt)
    · have hieq : i = dst.length := by omega
      rw [hieq, List.take_length] at hqe
      rw [hqe] at hq
      exact absurd (List.prefix_refl dst) hq

lemma copyFile_frame (fs : FS) (dst : FPath) (data : List Nat) (q : FPath)
    (hex : ∀ i, 1 ≤ i → i ≤ dst.dropLast.length → fs (dst.dropLast.take i) ≠ none)
    (hq : q ≠ dst) : copyFile fs dst data q = fs q := by
  unfold copyFile
  rw [writeFile_ne _ _ _ _ _ hq]
  exact mkdirAll_noop fs dst.dropLast 0o755 hex q

mutual

theorem copyDir_frame (src : FNode) (fs : FS) (dst : FPath) (q : FPath)
    (hex : ∀ i, 1 ≤ i → i < dst.length → fs (dst.take i) ≠ none)
    (hq : ¬ dst <+: q) : copyDir fs src dst q = fs q := by
  cases src with
  | file m c => rfl
  | dir m entries =>
    have hstep : mkdirAll fs dst m q = fs q := mkdirAll_frame_strict fs dst m q hex hq
    have hex1 : ∀ i, 1 ≤ i → i ≤ dst.length → mkdirAll fs dst m (dst.take i) ≠ none := by
      intro i h1 h2
      rcases Nat.lt_or_ge i dst.length with hlt | hge
      · obtain ⟨n, hn⟩ := Option.ne_none_iff_exists'.mp (hex i h1 hlt)
        rw [mkdirAll_preserve fs dst m _ n hn]
        exact fun hcontra => Option.noConfusion hcontra
      · have hieq : i = dst.length := by omega
        subst hieq
        by_cases hz : dst.length = 0
        · have hd : dst = [] := List.length_eq_zero.mp hz
          omega
        · exact mkdirAll_covers fs dst m dst.length (by omega) (le_refl _)
    rw [show copyDir fs (FNode.dir m entries) dst =
      copyEntries (mkdirAll fs dst m) entries dst from rfl]
    rw [copyEntries_frame entries (mkdirAll fs dst m) dst q hex1 hq]
    exact hstep

theorem copyEntries_frame (entries : List (String × FNode)) (fs : FS) (dst : FPath)
    (q : FPath)
    (hex : ∀ i, 1 ≤ i → i ≤ dst.length → fs (dst.take i) ≠ none)
    (hq : ¬ dst <+: q) : copyEntries fs entries dst q = fs q := by
  cases entries with
  | nil => rfl
  | cons e rest =>
    obtain ⟨name, node⟩ := e
    have hqd : q ≠ dst ++ [name] := by
      intro he
      exact hq (he ▸ List.prefix_append dst [name])
    have htake : ∀ i, i ≤ dst.length → (dst ++ [name]).take i = dst.take i := by
      intro i hi
      exact List.take_append_of_le_length hi
    cases node with
    | dir m es =>
      have hfr : copyDir fs (FNode.dir m es) (dst ++ [name]) q = fs q := by
        apply copyDir_frame
        · intro i h1 h2
          have hi : i ≤ dst.length := by
            simp only [List.length_append, List.length_cons, List.length_nil] at h2
            omega
          rw [htake i hi]
          exact hex i h1 hi
        · intro hcontra
          exact hq ((List.prefix_append dst [name]).trans hcontra)
      have hex1 : ∀ i, 1 ≤ i → i ≤ dst.length →
          copyDir fs (FNode.dir m es) (dst ++ [name]) (dst.take i) ≠ none := by
        intro i h1 h2
        obtain ⟨n, hn⟩ := Option.ne_none_iff_exists'.mp (hex i h1 h2)
        rw [copyDir_shallow (FNode.dir m es) fs (dst ++ [name]) (dst.take i) n
          (by simp only [List.length_take, List.length_append, List.length_cons,
            List.length_nil]; omega) hn]
        exact fun hcontra => Option.noConfusion hcontra
      rw [show copyEntries fs ((name, FNode.dir m es) :: rest) dst =
        copyEntries (copyDir fs (FNode.dir m es) (dst ++ [name])) rest dst from rfl]
      rw [copyEntries_frame rest (copyDir fs (FNode.dir m es) (dst ++ [name])) dst q
        hex1 hq]
      exact hfr
    | file m content =>
      have hdl : (dst ++ [name]).dropLast = dst := List.dropLast_concat
      have hfr : copyFile fs (dst ++ [name]) content q = fs q := by
        apply copyFile_frame
        · intro i h1 h2
          rw [hdl] at h2 ⊢
          exact hex i h1 h2
        · exact hqd
      have hex1 : ∀ i, 1 ≤ i → i ≤ dst.length →
          copyFile fs (dst ++ [name]) content (dst.take i) ≠ none := by
        intro i h1 h2
        obtain ⟨n, hn⟩ := Option.ne_none_iff_exists'.mp (hex i h1 h2)
        have hne : dst.take i ≠ dst ++ [name] := by
          intro he
          have hlh : (dst.take i).length = dst.length + 1 := by rw [he]; simp
          rw [List.length_take] at hlh
          omega
        rw [copyFile_shallow fs (dst ++ [name]) content (dst.take i) n hne hn]
        exact fun hcontra => Option.noConfusion hcontra
      rw [show copyEntries fs ((name, FNode.file m content) :: rest) dst =
        copyEntries (copyFile fs (dst ++ [name]) content) rest dst from rfl]
      rw [copyEntries_frame rest (copyFile fs (dst ++ [name]) content) dst q hex1 hq]
      exact hfr

end

lemma mkdirAll_dropLast_self (fs : FS) (dst : FPath) (perm : Nat) :
    mkdirAll fs dst.dropLast perm dst = fs dst := by
  rcases mkdirAll_cases fs dst.dropLast perm dst with h | ⟨_, _, i, h1, h2, hq⟩
  · exact h
  · exfalso
    have hlen := congrArg List.length hq
    rw [List.length_take, List.length_dropLast] at hlen
    rw [List.length_dropLast] at h2
    omega

/-- C7: the overlay only creates or overwrites entries under the destination working copy: every path not under `repoDir` (in particular the whole generated output tree, which lives outside it) is left exactly as it was, and no existing entry anywhere is deleted. -/
theorem overlay_frame (fs : FS) (outputEntries : List (String × FNode))
    (repoDir : FPath)
    (hex : ∀ i, 1 ≤ i → i ≤ repoDir.length → fs (repoDir.take i) ≠ none) :
    (∀ q, ¬ repoDir <+: q → copyFiles fs outputEntries repoDir q = fs q) ∧
    (∀ q n, fs q = some n → ∃ n', copyFiles fs outputEntries repoDir q = some n') :=
  ⟨fun q hq => copyEntries_frame outputEntries fs repoDir q hex hq,
   fun q n h => copyEntries_exists outputEntries fs repoDir q n h⟩

theorem overlay_frame_witness :
    copyFiles (fun q => if q = ["repo"] then some (SNode.dir 0o755) else none)
      [("x", FNode.file 0o644 [1])] ["repo"] ["out"] =
      (fun q : FPath => if q = ["repo"] then some (SNode.dir 0o755) else none) ["out"] ∧
    ∃ n', copyFiles (fun q => if q = ["repo"] then some (SNode.dir 0o755) else none)
      [("x", FNode.file 0o644 [1])] ["repo"] ["repo"] = some n' :=
  ⟨(overlay_frame (fun q => if q = ["repo"] then some (SNode.dir 0o755) else none)
      [("x", FNode.file 0o644 [1])] ["repo"]
      (by intro i h1 h2; have hi : i = 1 := by simp at h2; omega
          subst hi; decide)).1 ["out"] (by decide),
   (overlay_frame (fun q => if q = ["repo"] then some (SNode.dir 0o755) else none)
      [("x", FNode.file 0o644 [1])] ["repo"]
      (by intro i h1 h2; have hi : i = 1 := by simp at h2; omega
          subst hi; decide)).2 ["repo"] (SNode.dir 0o755) (by decide)⟩

/-- C6 counterexample: overlaying a source file of mode 0755 onto a fresh destination produces a destination file of mode 0644, not the source file's mode, refuting "ends up with the source file's mode". -/
theorem copyFile_mode_counterexample :
    copyFiles (fun q => if q = ["repo"] then some (SNode.dir 0o755) else none)
      [("x", FNode.file 0o755 [7])] ["repo"] ["repo", "x"] =
      some (SNode.file 0o644 [7]) ∧ (0o644 : Nat) ≠ 0o755 :=
  ⟨by decide, by decide⟩

/-- C6 as amended: the destination file is overwritten byte-for-byte with the source content; a newly created destination file gets the fixed mode 0644 regardless of the source file's mode, while an existing destination file keeps its prior mode; a missing destination directory corresponding to a source directory is created with the source directory's permissions, and parent directories on the file-copy path are created with 0755. -/
theorem overlay_modes :
    (∀ (fs : FS) (dst : FPath) (data : List Nat), fs dst = none →
      copyFile fs dst data dst = some (SNode.file 0o644 data)) ∧
    (∀ (fs : FS) (dst : FPath) (data : List Nat) (m0 : Nat) (c0 : List Nat),
      fs dst = some (SNode.file m0 c0) →
      copyFile fs dst data dst = some (SNode.file m0 data)) ∧
    (∀ (fs : FS) (m : Nat) (entries : List (String × FNode)) (dst : FPath),
      dst ≠ [] → fs dst = none →
      (∀ i, 1 ≤ i → i < dst.length → fs (dst.take i) ≠ none) →
      copyDir fs (FNode.dir m entries) dst dst = some (SNode.dir m)) ∧
    (∀ (fs : FS) (dst : FPath) (data : List Nat) (i : Nat),
      1 ≤ i → i ≤ dst.dropLast.length → fs (dst.dropLast.take i) = none →
      copyFile fs dst data (dst.dropLast.take i) = some (SNode.dir 0o755)) := by
  refine ⟨?_, ?_, ?_, ?_⟩
  · intro fs dst data hn
    unfold copyFile
    rw [writeFile_eq, mkdirAll_dropLast_self, hn]
  · intro fs dst data m0 c0 hs
    unfold copyFile
    rw [writeFile_eq, mkdirAll_dropLast_self, hs]
  · intro fs m entries dst hne hn hex
    have h1 : 1 ≤ dst.length := by
      cases dst with
      | nil => exact absurd rfl hne
      | cons a t => simp
    have hcr := mkdirAll_creates fs dst m dst.length h1 (le_refl _)
      (by rw [List.take_length]; exact hn)
    rw [List.take_length] at hcr
    rw [show copyDir fs (FNode.dir m entries) dst =
      copyEntries (mkdirAll fs dst m) entries dst from rfl]
    exact copyEntries_shallow entries (mkdirAll fs dst m) dst dst (SNode.dir m)
      (le_refl _) hcr
  · intro fs dst data i h1 h2 hn
    unfold copyFile
    have hne : dst.dropLast.take i ≠ dst := by
      intro he
      have hlen := congrArg List.length he
      rw [List.length_take, List.length_dropLast] at hlen
      rw [List.length_dropLast] at h2
      omega
    rw [writeFile_ne _ _ _ _ _ hne]
    have := mkdirAll_creates fs dst.dropLast 0o755 i h1 h2 hn
    exact this

theorem overlay_modes_witness :
    copyFile (fun _ : FPath => none) ["repo", "x"] [9] ["repo", "x"] =
      some (SNode.file 0o644 [9]) ∧
    copyFile (fun q : FPath => if q = ["repo", "x"] then
        some (SNode.file 0o600 [1]) else none) ["repo", "x"] [9] ["repo", "x"] =
      some (SNode.file 0o600 [9]) ∧
    copyDir (fun q : FPath => if q = ["repo"] then some (SNode.dir 0o755) else none)
      (FNode.dir 0o700 []) ["repo", "d"] ["repo", "d"] = some (SNode.dir 0o700) ∧
    copyFile (fun _ : FPath => none) ["a", "x"] [9] (["a", "x"].dropLast.take 1) =
      some (SNode.dir 0o755) :=
  ⟨overlay_modes.1 (fun _ => none) ["repo", "x"] [9] rfl,
   overlay_modes.2.1 (fun q => if q = ["repo", "x"] then
     some (SNode.file 0o600 [1]) else none) ["repo", "x"] [9] 0o600 [1] (by decide),
   overlay_modes.2.2.1 (fun q => if q = ["repo"] then some (SNode.dir 0o755) else none)
     0o700 [] ["repo", "d"] (by decide) (by decide)
     (by intro i hi1 hi2; have hi : i = 1 := by simp at hi2; omega
         subst hi; decide),
   overlay_modes.2.2.2 (fun _ => none) ["a", "x"] [9] 1 (by decide) (by decide) rfl⟩

open List in
lemma ltrim_all_append {p : Char → Bool} {ws l : List Char} (h : ws.all p = true) :
    (ws ++ l).dropWhile p = l.dropWhile p := by
  induction ws with
  | nil => rfl
  | cons c t ih =>
    simp only [List.all_cons, Bool.and_eq_true] at h
    simp [List.dropWhile_cons, h.1, ih h.2]

lemma ltrim_cons_not {p : Char → Bool} {c : Char} {l : List Char} (h : p c = false) :
    (c :: l).dropWhile p = c :: l := by
  simp [List.dropWhile_cons, h]

lemma ltrim_snoc_not {p : Char → Bool} {c : Char} {l : List Char} (h : p c = false) :
    (l ++ [c]).dropWhile p = l.dropWhile p ++ [c] := by
  induction l with
  | nil => simp [List.dropWhile_cons, h]
  | cons d t ih =>
    by_cases hd : p d <;> simp [List.dropWhile_cons, hd, ih]

lemma goTrimSpaceList_all {l : List Char} (h : l.all goIsSpace = true) :
    goTrimSpaceList l = [] := by
  unfold goTrimSpaceList
  have h1 : l.dropWhile goIsSpace = [] := by
    rw [List.dropWhile_eq_nil_iff]
    intro x hx
    exact (List.all_eq_true.mp h) x hx
  simp [h1]

lemma goTrimSpaceList_clean {ws1 ws2 s : List Char}
    (h1 : ws1.all goIsSpace = true) (h2 : ws2.all goIsSpace = true)
    (hne : s ≠ []) (hh : goIsSpace (s.head hne) = false)
    (hl : goIsSpace (s.getLast hne) = false) :
    goTrimSpaceList (ws1 ++ s ++ ws2) = s := by
  unfold goTrimSpaceList
  rw [List.append_assoc, ltrim_all_append h1]
  have hs : s = s.head hne :: s.tail := (List.head_cons_tail s hne).symm
  have e1 : (s ++ ws2).dropWhile goIsSpace = s ++ ws2 := by
    rw [hs, List.cons_append, ltrim_cons_not hh, ← List.cons_append, ← hs]
  rw [e1, List.reverse_append, ltrim_all_append (by simpa using h2)]
  have hs2 : s = s.dropLast ++ [s.getLast hne] := (List.dropLast_append_getLast hne).symm
  have hrev : s.reverse = s.getLast hne :: s.dropLast.reverse := by
    conv_lhs => rw [hs2]
    simp
  have e2 : s.reverse.dropWhile goIsSpace = s.reverse := by
    rw [hrev, ltrim_cons_not hl]
  rw [e2, List.reverse_reverse]

lemma goTrimSpaceList_comment {ws t : List Char} (h : ws.all goIsSpace = true) :
    ∃ u : List Char, goTrimSpaceList (ws ++ '#' :: t) = '#' :: u := by
  unfold goTrimSpaceList
  rw [ltrim_all_append h]
  rw [ltrim_cons_not (by decide)]
  rw [show ('#' :: t).reverse = t.reverse ++ ['#'] by simp]
  rw [ltrim_snoc_not (by decide)]
  exact ⟨(t.reverse.dropWhile goIsSpace).reverse, by simp⟩

lemma singleton_infix_any (ch : Char) (x : List Char) :
    decide ([ch] <:+: x) = x.any (fun c => c = ch) := by
  by_cases h : [ch] <:+: x
  · rw [decide_eq_true h]
    symm
    rw [List.any_eq_true]
    obtain ⟨s, t, rfl⟩ := h
    exact ⟨ch, by simp, by simp⟩
  · rw [decide_eq_false h]
    symm
    rw [List.any_eq_false]
    intro c hc hcc
    apply h
    have hce : c = ch := of_decide_eq_true hcc
    subst hce
    obtain ⟨s, t, rfl⟩ := List.append_of_mem hc
    exact ⟨s, t, by simp⟩

lemma isValid_eq_amended (l : String) : isValidRepoFormat l = claimValidAmended l := by
  unfold isValidRepoFormat claimValidAmended
  cases h : l.data.splitOn '/' with
  | nil => rfl
  | cons a t =>
    cases t with
    | nil => rfl
    | cons b t2 =>
      cases t2 with
      | cons c t3 => rfl
      | nil =>
        have e1 : ∀ x : List Char, decide (0 < x.length) = !x.isEmpty := by
          intro x; cases x <;> simp
        have e2 := singleton_infix_any ' '
        simp only [e1, e2]

lemma filterMap_eq_filter_map (p : String → Bool) (g : String → String)
    (f : String → Option String)
    (hf : ∀ raw, f raw = if p (g raw) then some (g raw) else none) :
    ∀ lines : List String, lines.filterMap f = (lines.map g).filter p := by
  intro lines
  induction lines with
  | nil => rfl
  | cons x xs ih =>
    rw [List.filterMap_cons, List.map_cons, List.filter_cons, hf x]
    by_cases hp : p (g x) = true
    · simp [hp, ih]
    · simp [hp, ih]

/-- C5 counterexample: the line "a<TAB>b/c" contains whitespace inside a segment, so the claim's "whitespace-free" criterion rejects it, yet `loadRepos` keeps it: the code only rejects the space character U+0020. -/
theorem loadRepos_whitespace_counterexample :
    loadRepos ["a\tb/c"] = ["a\tb/c"] ∧ claimValidOriginal "a\tb/c" = false := by
  constructor
  · decide
  · decide

/-- C5 as amended: `loadRepos` returns exactly the trimmed lines, in file order, that are non-blank, non-comment and valid, where valid means splitting on `/` into exactly two non-empty segments neither containing a space character (U+0020); and the example manifest yields [a/b, c/d]. -/
theorem loadRepos_space_only_validity :
    (∀ lines : List String,
      loadRepos lines = (lines.map goTrimSpace).filter
        (fun l => !(decide (l = "")) && !(goHasPrefixOf l "#") && claimValidAmended l)) ∧
    loadRepos ["a/b", "# comment", "", "c/d", "malformed"] = ["a/b", "c/d"] := by
  constructor
  · intro lines
    apply filterMap_eq_filter_map
    intro raw
    by_cases h1 : goTrimSpace raw = ""
    · simp [h1]
    · by_cases h2 : goHasPrefixOf (goTrimSpace raw) "#" = true
      · simp [h1, h2]
      · by_cases h3 : isValidRepoFormat (goTrimSpace raw) = true
        · have h3' : claimValidAmended (goTrimSpace raw) = true := by
            rw [← isValid_eq_amended]; exact h3
          simp [h1, h2, h3, h3']
        · have h3' : claimValidAmended (goTrimSpace raw) = false := by
            rw [← isValid_eq_amended]; simpa using h3
          simp [h1, h2, h3, h3']
  · decide

/-- C9: `loadRepos` trims each line before classifying it: a line of only whitespace is skipped as blank, a line whose first non-whitespace character is `#` is skipped as a comment, and a valid owner/repo entry surrounded by spaces or tabs is accepted and returned in trimmed form. -/
theorem loadRepos_trim_classify :
    (∀ s : String, s.data.all goIsSpace = true → loadRepos [s] = []) ∧
    (∀ (s : String) (ws t : List Char), ws.all goIsSpace = true →
      s.data = ws ++ '#' :: t → loadRepos [s] = []) ∧
    (∀ ws1 entry ws2 : String,
      ws1.data.all (fun c => c = ' ' || c = '\t') = true →
      ws2.data.all (fun c => c = ' ' || c = '\t') = true →
      ∀ hne : entry.data ≠ [],
      goIsSpace (entry.data.head hne) = false →
      goIsSpace (entry.data.getLast hne) = false →
      entry.data.head hne ≠ '#' →
      isValidRepoFormat entry = true →
      loadRepos [ws1 ++ entry ++ ws2] = [entry]) := by
  have hthin : ∀ c : Char, (c = ' ' || c = '\t') = true → goIsSpace c = true := by
    intro c hc
    simp only [Bool.or_eq_true, decide_eq_true_eq] at hc
    rcases hc with hc | hc <;> subst hc <;> rfl
  refine ⟨?_, ?_, ?_⟩
  · intro s hs
    have ht : goTrimSpace s = "" := by
      unfold goTrimSpace
      rw [goTrimSpaceList_all hs]
    simp [loadRepos, ht]
  · intro s ws t hws hdata
    obtain ⟨u, hu⟩ := goTrimSpaceList_comment (t := t) hws
    have ht : goTrimSpace s = ⟨'#' :: u⟩ := by
      unfold goTrimSpace
      rw [hdata, hu]
    have hne : (⟨'#' :: u⟩ : String) ≠ "" :=
      fun hx => List.noConfusion (congrArg String.data hx)
    have hpre : goHasPrefixOf ⟨'#' :: u⟩ "#" = true := by
      simp [goHasPrefixOf, List.isPrefixOf]
    simp [loadRepos, ht, hne, hpre]
  · intro ws1 entry ws2 h1 h2 hne hh hl hhash hvalid
    obtain ⟨edata⟩ := entry
    rcases hed : edata with _ | ⟨c, rest⟩
    · subst hed; exact absurd rfl hne
    subst hed
    have hws1 : ws1.data.all goIsSpace = true := by
      rw [List.all_eq_true] at h1 ⊢
      intro x hx; exact hthin x (h1 x hx)
    have hws2 : ws2.data.all goIsSpace = true := by
      rw [List.all_eq_true] at h2 ⊢
      intro x hx; exact hthin x (h2 x hx)
    have htrim : goTrimSpace (ws1 ++ ⟨c :: rest⟩ ++ ws2) = ⟨c :: rest⟩ := by
      unfold goTrimSpace
      rw [String.data_append, String.data_append]
      rw [goTrimSpaceList_clean hws1 hws2 hne hh hl]
    have hnemp : (⟨c :: rest⟩ : String) ≠ "" :=
      fun hx => List.noConfusion (congrArg String.data hx)
    have hb : ('#' == c) = false := by
      rw [beq_eq_false_iff_ne]
      intro hcc
      exact hhash hcc.symm
    have hpre : goHasPrefixOf ⟨c :: rest⟩ "#" = false := by
      simp [goHasPrefixOf, List.isPrefixOf, hb]
    simp [loadRepos, htrim, hnemp, hpre, hvalid]

theorem loadRepos_trim_classify_witness :
    loadRepos ["  \t"] = [] ∧ loadRepos [" # x"] = [] ∧
    loadRepos [" " ++ "a/b" ++ "\t"] = ["a/b"] :=
  ⟨loadRepos_trim_classify.1 "  \t" (by decide),
   loadRepos_trim_classify.2.1 " # x" [' '] [' ', 'x'] (by decide) (by decide),
   loadRepos_trim_classify.2.2 " " "a/b" "\t" (by decide) (by decide) (by decide)
     (by decide) (by decide) (by decide) (by decide)⟩

lemma tally_results (st : RunState) (r : SyncResult) :
    (tally st r).results = st.results ++ [r] := by
  unfold tally
  repeat' split
  all_goals rfl

lemma tally_failCount (st : RunState) (r : SyncResult) :
    (tally st r).failCount = st.failCount + (if failedOutcome r then 1 else 0) := by
  by_cases h1 : r.success = true <;> by_cases h2 : r.prURL = "" <;>
    by_cases h3 : goContains r.message "no changes" = true <;>
      by_cases h4 : goContains r.message "merged" = true <;>
        by_cases h5 : goContains r.message "initialized" = true <;>
          simp [tally, failedOutcome, h1, h2, h3, h4, h5]

lemma tally_skipCount (st : RunState) (r : SyncResult) :
    (tally st r).skipCount = st.skipCount + (if skippedOutcome r then 1 else 0) := by
  by_cases h1 : r.success = true <;> by_cases h2 : r.prURL = "" <;>
    by_cases h3 : goContains r.message "no changes" = true <;>
      by_cases h4 : goContains r.message "merged" = true <;>
        by_cases h5 : goContains r.message "initialized" = true <;>
          simp [tally, skippedOutcome, h1, h2, h3, h4, h5]

lemma tally_successCount (st : RunState) (r : SyncResult) :
    (tally st r).successCount =
      st.successCount + (if createdOrMergedOutcome r then 1 else 0) := by
  by_cases h1 : r.success = true <;> by_cases h2 : r.prURL = "" <;>
    by_cases h3 : goContains r.message "no changes" = true <;>
      by_cases h4 : goContains r.message "merged" = true <;>
        by_cases h5 : goContains r.message "initialized" = true <;>
          simp [tally, createdOrMergedOutcome, h1, h2, h3, h4, h5]

lemma runLoop_results (cfg : Config) (envs : String → RepoEnv) (b : String) :
    ∀ (repos : List String) (st : RunState),
      (runLoop cfg envs b repos st).results =
        st.results ++ repos.map (fun repo => (syncRepo cfg (envs repo) repo b).1) := by
  intro repos
  induction repos with
  | nil => intro st; simp [runLoop]
  | cons repo rest ih =>
    intro st
    rw [runLoop, ih, tally_results]
    simp

lemma runLoop_failCount (cfg : Config) (envs : String → RepoEnv) (b : String) :
    ∀ (repos : List String) (st : RunState),
      (runLoop cfg envs b repos st).failCount =
        st.failCount +
          (repos.map (fun repo => (syncRepo cfg (envs repo) repo b).1)).countP failedOutcome := by
  intro repos
  induction repos with
  | nil => intro st; simp [runLoop]
  | cons repo rest ih =>
    intro st
    rw [runLoop, ih, tally_failCount]
    simp [List.countP_cons]
    by_cases h : failedOutcome ((syncRepo cfg (envs repo) repo b).1) = true <;>
      simp [h] <;> omega

lemma runLoop_skipCount (cfg : Config) (envs : String → RepoEnv) (b : String) :
    ∀ (repos : List String) (st : RunState),
      (runLoop cfg envs b repos st).skipCount =
        st.skipCount +
          (repos.map (fun repo => (syncRepo cfg (envs repo) repo b).1)).countP skippedOutcome := by
  intro repos
  induction repos with
  | nil => intro st; simp [runLoop]
  | cons repo rest ih =>
    intro st
    rw [runLoop, ih, tally_skipCount]
    simp [List.countP_cons]
    by_cases h : skippedOutcome ((syncRepo cfg (envs repo) repo b).1) = true <;>
      simp [h] <;> omega

lemma runLoop_successCount (cfg : Config) (envs : String → RepoEnv) (b : String) :
    ∀ (repos : List String) (st : RunState),
      (runLoop cfg envs b repos st).successCount =
        st.successCount +
          (repos.map (fun repo => (syncRepo cfg (envs repo) repo b).1)).countP
            createdOrMergedOutcome := by
  intro repos
  induction repos with
  | nil => intro st; simp [runLoop]
  | cons repo rest ih =>
    intro st
    rw [runLoop, ih, tally_successCount]
    simp [List.countP_cons]
    by_cases h : createdOrMergedOutcome ((syncRepo cfg (envs repo) repo b).1) = true <;>
      simp [h] <;> omega

lemma outcome_partition (l : List SyncResult) :
    l.countP createdOrMergedOutcome + l.countP skippedOutcome +
      l.countP failedOutcome = l.length := by
  induction l with
  | nil => rfl
  | cons r t ih =>
    simp only [List.countP_cons, List.length_cons]
    by_cases h1 : r.success = true <;> by_cases h2 : r.prURL = "" <;>
      by_cases h3 : goContains r.message "no changes" = true <;>
        simp [createdOrMergedOutcome, skippedOutcome, failedOutcome, h1, h2, h3] <;>
          omega

lemma runLoop_results_nil (cfg : Config) (envs : String → RepoEnv) (b : String)
    (repos : List String) :
    (runLoop cfg envs b repos ⟨[], 0, 0, 0⟩).results =
      repos.map (fun repo => (syncRepo cfg (envs repo) repo b).1) :=
  (runLoop_results cfg envs b repos ⟨[], 0, 0, 0⟩).trans (List.nil_append _)

lemma runLoop_failCount_nil (cfg : Config) (envs : String → RepoEnv) (b : String)
    (repos : List String) :
    (runLoop cfg envs b repos ⟨[], 0, 0, 0⟩).failCount =
      (repos.map (fun repo => (syncRepo cfg (envs repo) repo b).1)).countP
        failedOutcome :=
  (runLoop_failCount cfg envs b repos ⟨[], 0, 0, 0⟩).trans (Nat.zero_add _)

lemma runLoop_skipCount_nil (cfg : Config) (envs : String → RepoEnv) (b : String)
    (repos : List String) :
    (runLoop cfg envs b repos ⟨[], 0, 0, 0⟩).skipCount =
      (repos.map (fun repo => (syncRepo cfg (envs repo) repo b).1)).countP
        skippedOutcome :=
  (runLoop_skipCount cfg envs b repos ⟨[], 0, 0, 0⟩).trans (Nat.zero_add _)

lemma runLoop_successCount_nil (cfg : Config) (envs : String → RepoEnv) (b : String)
    (repos : List String) :
    (runLoop cfg envs b repos ⟨[], 0, 0, 0⟩).successCount =
      (repos.map (fun repo => (syncRepo cfg (envs repo) repo b).1)).countP
        createdOrMergedOutcome :=
  (runLoop_successCount cfg envs b repos ⟨[], 0, 0, 0⟩).trans (Nat.zero_add _)

/-- C1: the per-repository loop of `Run` never aborts on a per-repository error: it yields exactly one `SyncResult` per target, appended in manifest order, each determined solely by that repository's own adapter outcomes, so any repository's failure leaves every other repository's outcome unchanged. -/
theorem runLoop_failure_isolation (cfg : Config) (envs envs' : String → RepoEnv)
    (b : String) (repos : List String) (k : Nat) (hk : k < repos.length)
    (hagree : ∀ r, r ≠ repos[k] → envs r = envs' r) :
    (runLoop cfg envs b repos ⟨[], 0, 0, 0⟩).results.length = repos.length ∧
    (∀ i (hi : i < repos.length),
      (runLoop cfg envs b repos ⟨[], 0, 0, 0⟩).results[i]? =
        some ((syncRepo cfg (envs repos[i]) repos[i] b).1)) ∧
    (∀ j (hj : j < repos.length), repos[j] ≠ repos[k] →
      (runLoop cfg envs b repos ⟨[], 0, 0, 0⟩).results[j]? =
        (runLoop cfg envs' b repos ⟨[], 0, 0, 0⟩).results[j]?) := by
  have hres := runLoop_results_nil cfg envs b repos
  have hres' := runLoop_results_nil cfg envs' b repos
  refine ⟨?_, ?_, ?_⟩
  · rw [hres]; simp
  · intro i hi
    rw [hres]
    rw [List.getElem?_map, List.getElem?_eq_getElem hi]
    rfl
  · intro j hj hne
    rw [hres, hres', List.getElem?_map, List.getElem?_map,
      List.getElem?_eq_getElem hj]
    simp only [Option.map_some']
    rw [hagree repos[j] hne]

/-- C10: each `SyncResult` of the loop increments exactly one tally counter, so the three counters sum to the number of valid targets; a successful result counts as skipped exactly when its review-request URL is empty and its message contains "no changes", every other successful result lands in the created/merged count, and unsuccessful ones in the failed count. -/
theorem run_tally_partition (cfg : Config) (envs : String → RepoEnv) (b : String)
    (repos : List String) :
    (runLoop cfg envs b repos ⟨[], 0, 0, 0⟩).results.length = repos.length ∧
    (runLoop cfg envs b repos ⟨[], 0, 0, 0⟩).successCount +
        (runLoop cfg envs b repos ⟨[], 0, 0, 0⟩).skipCount +
        (runLoop cfg envs b repos ⟨[], 0, 0, 0⟩).failCount = repos.length ∧
    (runLoop cfg envs b repos ⟨[], 0, 0, 0⟩).skipCount =
      (runLoop cfg envs b repos ⟨[], 0, 0, 0⟩).results.countP skippedOutcome ∧
    (runLoop cfg envs b repos ⟨[], 0, 0, 0⟩).successCount =
      (runLoop cfg envs b repos ⟨[], 0, 0, 0⟩).results.countP createdOrMergedOutcome ∧
    (runLoop cfg envs b repos ⟨[], 0, 0, 0⟩).failCount =
      (runLoop cfg envs b repos ⟨[], 0, 0, 0⟩).results.countP failedOutcome := by
  have hres := runLoop_results_nil cfg envs b repos
  have hf := runLoop_failCount_nil cfg envs b repos
  have hs := runLoop_skipCount_nil cfg envs b repos
  have hc := runLoop_successCount_nil cfg envs b repos
  refine ⟨by rw [hres]; simp, ?_, by rw [hs, hres], by rw [hc, hres], by rw [hf, hres]⟩
  rw [hf, hs, hc, outcome_partition, List.length_map]

/-- C4: with prerequisites passing and the manifest loading at least one valid target, `Run` returns a non-nil error if and only if at least one repository's `SyncResult` has Success false; in particular successful "no changes" results never by themselves make the run fail. -/
theorem run_error_iff_some_failure (cfg : Config) (envs : String → RepoEnv)
    (start : Timestamp) (lines : List String) (hne : loadRepos lines ≠ []) :
    ∃ st err,
      run (Except.ok ()) (Except.ok ()) (Except.ok lines) cfg envs start =
        RunOutcome.finished st err ∧
      (err ≠ none ↔ ∃ r ∈ st.results, r.success = false) := by
  have hz : ¬ (loadRepos lines).length = 0 := by
    simpa [List.length_eq_zero] using hne
  by_cases hf : 0 < (runLoop cfg envs (mkBranchName start) (loadRepos lines)
      ⟨[], 0, 0, 0⟩).failCount
  · refine ⟨runLoop cfg envs (mkBranchName start) (loadRepos lines) ⟨[], 0, 0, 0⟩,
      some (toString (runLoop cfg envs (mkBranchName start) (loadRepos lines)
        ⟨[], 0, 0, 0⟩).failCount ++ " repositories failed to sync"),
      by simp [run, hz, hf], ?_⟩
    simp only [ne_eq, reduceCtorEq, not_false_eq_true, true_iff]
    have hcount := runLoop_failCount_nil cfg envs (mkBranchName start) (loadRepos lines)
    have hres := runLoop_results_nil cfg envs (mkBranchName start) (loadRepos lines)
    rw [hcount] at hf
    obtain ⟨r, hmem, hr⟩ := List.countP_pos.mp hf
    refine ⟨r, by rw [hres]; exact hmem, by simpa [failedOutcome] using hr⟩
  · refine ⟨runLoop cfg envs (mkBranchName start) (loadRepos lines) ⟨[], 0, 0, 0⟩,
      none, by simp [run, hz, hf], ?_⟩
    simp only [ne_eq, not_true_eq_false, false_iff, not_exists]
    intro r
    have hcount := runLoop_failCount_nil cfg envs (mkBranchName start) (loadRepos lines)
    have hres := runLoop_results_nil cfg envs (mkBranchName start) (loadRepos lines)
    intro hcontra
    obtain ⟨hmem, hrf⟩ := hcontra
    rw [hres] at hmem
    apply hf
    rw [hcount]
    exact List.countP_pos.mpr ⟨r, hmem, by simp [failedOutcome, hrf]⟩

/-- C8: a finished run computes a single branch name, the fixed prefix "agentspack/update-" followed by the start timestamp at second resolution, and every repository's sync in the run receives exactly that name: every adapter call that carries a branch argument carries it. -/
theorem run_single_branch_name (cfg : Config) (envs : String → RepoEnv)
    (start : Timestamp) (lines : List String) (st : RunState) (err : Option String)
    (hrun : run (Except.ok ()) (Except.ok ()) (Except.ok lines) cfg envs start =
      RunOutcome.finished st err) :
    mkBranchName start = "agentspack/update-" ++ formatStamp start ∧
    st.results.length = (loadRepos lines).length ∧
    (∀ i (hi : i < (loadRepos lines).length),
      st.results[i]? =
        some ((syncRepo cfg (envs (loadRepos lines)[i]) (loadRepos lines)[i]
          (mkBranchName start)).1)) ∧
    (∀ (env : RepoEnv) (repo : String),
      ∀ c ∈ (syncRepo cfg env repo (mkBranchName start)).2,
        ∀ br, c.branchArg = some br → br = mkBranchName start) := by
  by_cases hz : (loadRepos lines).length = 0
  · simp [run, hz] at hrun
  · have hst : st =
        runLoop cfg envs (mkBranchName start) (loadRepos lines) ⟨[], 0, 0, 0⟩ := by
      simp only [run, hz, if_false] at hrun
      split at hrun <;> injection hrun with h1 h2 <;> exact h1.symm
    refine ⟨rfl, ?_, ?_, ?_⟩
    · rw [hst, runLoop_results_nil]; simp
    · intro i hi
      rw [hst, runLoop_results_nil, List.getElem?_map, List.getElem?_eq_getElem hi]
      rfl
    · intro env repo c hc br hbr
      have := syncRepo_trace_mem cfg env repo (mkBranchName start) c hc
      rcases this with h | h | h | h | h | h | ⟨_, h | h⟩ <;> subst h <;>
        simp [Call.branchArg] at hbr <;> exact hbr.symm

theorem runLoop_failure_isolation_witness :
    ((runLoop ⟨"pr", "main"⟩
        (fun r => if r = "a/b"
          then ⟨Except.ok (), Except.error "unreachable", false, Except.ok (),
            Except.ok (), Except.ok true, Except.ok "u", Except.ok (), Except.ok ()⟩
          else ⟨Except.ok (), Except.ok (), false, Except.ok (), Except.ok (),
            Except.ok true, Except.ok "u", Except.ok (), Except.ok ()⟩)
        "br" ["a/b", "c/d"] ⟨[], 0, 0, 0⟩).results.length = 2) ∧
    ((runLoop ⟨"pr", "main"⟩
        (fun _ => ⟨Except.ok (), Except.ok (), false, Except.ok (), Except.ok (),
          Except.ok true, Except.ok "u", Except.ok (), Except.ok ()⟩)
        "br" ["a/b", "c/d"] ⟨[], 0, 0, 0⟩).results[1]? =
      (runLoop ⟨"pr", "main"⟩
        (fun r => if r = "a/b"
          then ⟨Except.ok (), Except.error "unreachable", false, Except.ok (),
            Except.ok (), Except.ok true, Except.ok "u", Except.ok (), Except.ok ()⟩
          else ⟨Except.ok (), Except.ok (), false, Except.ok (), Except.ok (),
            Except.ok true, Except.ok "u", Except.ok (), Except.ok ()⟩)
        "br" ["a/b", "c/d"] ⟨[], 0, 0, 0⟩).results[1]?) :=
  ⟨((runLoop_failure_isolation ⟨"pr", "main"⟩
      (fun r => if r = "a/b"
        then ⟨Except.ok (), Except.error "unreachable", false, Except.ok (),
          Except.ok (), Except.ok true, Except.ok "u", Except.ok (), Except.ok ()⟩
        else ⟨Except.ok (), Except.ok (), false, Except.ok (), Except.ok (),
          Except.ok true, Except.ok "u", Except.ok (), Except.ok ()⟩)
      (fun _ => ⟨Except.ok (), Except.ok (), false, Except.ok (), Except.ok (),
        Except.ok true, Except.ok "u", Except.ok (), Except.ok ()⟩)
      "br" ["a/b", "c/d"] 0 (by decide)
      (fun r hr => if_neg hr)).1),
    ((runLoop_failure_isolation ⟨"pr", "main"⟩
      (fun _ => ⟨Except.ok (), Except.ok (), false, Except.ok (), Except.ok (),
        Except.ok true, Except.ok "u", Except.ok (), Except.ok ()⟩)
      (fun r => if r = "a/b"
        then ⟨Except.ok (), Except.error "unreachable", false, Except.ok (),
          Except.ok (), Except.ok true, Except.ok "u", Except.ok (), Except.ok ()⟩
        else ⟨Except.ok (), Except.ok (), false, Except.ok (), Except.ok (),
          Except.ok true, Except.ok "u", Except.ok (), Except.ok ()⟩)
      "br" ["a/b", "c/d"] 0 (by decide)
      (fun r hr => (if_neg hr).symm)).2.2 1 (by decide) (by decide))⟩

theorem run_error_iff_some_failure_witness :
    ∃ st err,
      run (Except.ok ()) (Except.ok ()) (Except.ok ["a/b"]) ⟨"pr", "main"⟩
        (fun _ => ⟨Except.ok (), Except.ok (), false, Except.ok (), Except.ok (),
          Except.ok true, Except.ok "u", Except.ok (), Except.ok ()⟩)
        ⟨2026, 1, 2, 3, 4, 5⟩ = RunOutcome.finished st err ∧
      (err ≠ none ↔ ∃ r ∈ st.results, r.success = false) :=
  run_error_iff_some_failure ⟨"pr", "main"⟩
    (fun _ => ⟨Except.ok (), Except.ok (), false, Except.ok (), Except.ok (),
      Except.ok true, Except.ok "u", Except.ok (), Except.ok ()⟩)
    ⟨2026, 1, 2, 3, 4, 5⟩ ["a/b"] (by decide)

theorem run_single_branch_name_witness :
    mkBranchName ⟨2026, 1, 2, 3, 4, 5⟩ =
      "agentspack/update-" ++ formatStamp ⟨2026, 1, 2, 3, 4, 5⟩ ∧
    (⟨[⟨"a/b", true, "", "u"⟩], 1, 0, 0⟩ : RunState).results.length =
      (loadRepos ["a/b"]).length ∧
    (∀ i (hi : i < (loadRepos ["a/b"]).length),
      (⟨[⟨"a/b", true, "", "u"⟩], 1, 0, 0⟩ : RunState).results[i]? =
        some ((syncRepo ⟨"pr", "main"⟩
          ((fun _ => ⟨Except.ok (), Except.ok (), false, Except.ok (), Except.ok (),
            Except.ok true, Except.ok "u", Except.ok (), Except.ok ()⟩ : String → RepoEnv)
            (loadRepos ["a/b"])[i])
          (loadRepos ["a/b"])[i] (mkBranchName ⟨2026, 1, 2, 3, 4, 5⟩)).1)) ∧
    (∀ (env : RepoEnv) (repo : String),
      ∀ c ∈ (syncRepo ⟨"pr", "main"⟩ env repo (mkBranchName ⟨2026, 1, 2, 3, 4, 5⟩)).2,
        ∀ br, c.branchArg = some br → br = mkBranchName ⟨2026, 1, 2, 3, 4, 5⟩) :=
  run_single_branch_name ⟨"pr", "main"⟩
    (fun _ => ⟨Except.ok (), Except.ok (), false, Except.ok (), Except.ok (),
      Except.ok true, Except.ok "u", Except.ok (), Except.ok ()⟩)
    ⟨2026, 1, 2, 3, 4, 5⟩ ["a/b"] ⟨[⟨"a/b", true, "", "u"⟩], 1, 0, 0⟩ none (by decide)

end Agentspack
